import Mathlib

/-!
Verification of the npm-downloads Data Studio connector (`src/main.js`).

The connector is JavaScript; this file gives a shallow embedding of the
functions the specification talks about: `validateConfig`, `fetchDataFromApi`,
`normalizeResponse`, `getFormattedData`, `formatData` and the `getData` entry
point, together with the fixed field schema from `getFields`.

Modelling conventions:
* JavaScript strings are modelled as `List Char` (`JsStr`).
* Parsed JSON values are modelled by the inductive `Js`; JavaScript objects
  are ordered association lists (JSON parsing never produces duplicate keys,
  and the package names occurring here are not array-index-like, so insertion
  order enumeration is faithful).
* Thrown JavaScript exceptions are modelled with `Except JsError`; a `TypeError`
  (property access on `undefined`, calling `.map`/`.replace` on a value that
  lacks it), a JSON `SyntaxError` (`parseError` here), a failed
  `UrlFetchApp.fetch`, the user error thrown by
  `cc.newUserError().throwException()`, and the `ReferenceError` raised by
  reading a name that is not in scope are distinguished.
* The external world (the HTTP fetch) is passed to `getData` as a function
  from the request URL to a `FetchOutcome`.
-/

/-- JavaScript strings, modelled as lists of characters. -/
abbrev JsStr := List Char

/-- The constant `DEFAULT_PACKAGE = 'googleapis'` from the top of the file. -/
def DEFAULT_PACKAGE : JsStr := "googleapis".toList

/-- Model of `String.prototype.split` with a one-character separator (the code only
splits on `','`): the empty string yields `[""]`, and in general the result is
the list of (possibly empty) chunks between separator occurrences. -/
def jsSplit (sep : Char) : JsStr → List JsStr
  | [] => [[]]
  | c :: rest =>
    match jsSplit sep rest with
    | [] => [[]]
    | p :: ps => if c = sep then [] :: p :: ps else (c :: p) :: ps

/-- Model of `Array.prototype.join` with a one-character separator. -/
def jsJoin (sep : Char) : List JsStr → JsStr
  | [] => []
  | [x] => x
  | x :: y :: ys => x ++ sep :: jsJoin sep (y :: ys)

/-- Model of `String.prototype.trim`: drop whitespace from both ends.  (JavaScript also
trims a few extra Unicode space code points; every string the connector or the
claims handle is ASCII, where the two notions agree.) -/
def jsTrim (s : JsStr) : JsStr :=
  ((s.dropWhile Char.isWhitespace).reverse.dropWhile Char.isWhitespace).reverse

/-- Parsed JSON / JavaScript values as far as the connector inspects them. -/
inductive Js where
  | undefined : Js
  | str : JsStr → Js
  | num : Int → Js
  | obj : List (JsStr × Js) → Js
  | arr : List Js → Js

/-- Exceptions thrown while serving a request. -/
inductive JsError where
  | typeError : JsError
  | parseError : JsError
  | fetchError : JsError
  | userError : JsError
  | referenceError : JsError
deriving DecidableEq

/-- First value bound to a key in an object's property list (`undefined` when
the key is absent). -/
def lookupJs : List (JsStr × Js) → JsStr → Js
  | [], _ => .undefined
  | (k, v) :: rest, key => if k = key then v else lookupJs rest key

/-- JavaScript property access `o[key]`: throws a `TypeError` on `undefined`,
returns the stored value (or `undefined`) on an object, and `undefined` on the
remaining primitives (whose built-in properties the connector never hits). -/
def jsGet : Js → JsStr → Except JsError Js
  | .undefined, _ => .error .typeError
  | .obj kvs, key => .ok (lookupJs kvs key)
  | _, _ => .ok .undefined

/-- Own enumerable string-keyed entries, as `Object.keys` plus indexing
enumerates them: objects in insertion order, arrays and strings by index,
other primitives contribute nothing. -/
def jsEntries : Js → List (JsStr × Js)
  | .obj kvs => kvs
  | .arr es => es.enum.map (fun iv => ((toString iv.1).toList, iv.2))
  | .str s => s.enum.map (fun ic => ((toString ic.1).toList, Js.str [ic.2]))
  | _ => []

/-- Model of `Array.prototype.map` with a callback that may throw: the first exception
aborts the whole map. -/
def jsMap {α β : Type} (f : α → Except JsError β) : List α → Except JsError (List β)
  | [] => .ok []
  | a :: t =>
    match f a with
    | .error e => .error e
    | .ok b =>
      match jsMap f t with
      | .error e => .error e
      | .ok bs => .ok (b :: bs)

/-- Body text of the upstream HTTP response, as handed to `JSON.parse`: either
it is valid JSON (carrying the parsed value) or parsing fails. -/
inductive ResponseText where
  | jsonOf : Js → ResponseText
  | malformed : ResponseText

/-- Outcome of one `UrlFetchApp.fetch` call at a given URL. -/
inductive FetchOutcome where
  | ok : ResponseText → FetchOutcome
  | fail : FetchOutcome

/-- Model of `JSON.parse` on the response text: a `SyntaxError` is thrown on malformed
input. -/
def jsonParse : ResponseText → Except JsError Js
  | .jsonOf v => .ok v
  | .malformed => .error .parseError

/-- The `configParams` member of a request: its `package` property may be
absent. -/
structure ConfigParams where
  package : Option JsStr
deriving DecidableEq

/-- The `dateRange` member of a request. -/
structure DateRange where
  startDate : JsStr
  endDate : JsStr

/-- One entry of the request's `fields` list (the connector reads `.name`). -/
structure RequestField where
  name : JsStr

/-- The `getData` request: `configParams` itself may be absent. -/
structure DataRequest where
  configParams : Option ConfigParams
  dateRange : DateRange
  fields : List RequestField

/-- Split on commas, trim each element, rejoin — the normalization step inside
`validateConfig`. -/
def resolvePackage (p : JsStr) : JsStr :=
  jsJoin ',' ((jsSplit ',' p).map jsTrim)

/-- The function `validateConfig` (src/main.js:185-197): default an absent config to `{}`,
default an absent or empty (the only falsy string) `package` to
`DEFAULT_PACKAGE`, then split on commas, trim each element and rejoin. -/
def validateConfig (configParams : Option ConfigParams) : ConfigParams :=
  let cp := configParams.getD ⟨none⟩
  let pkg :=
    match cp.package with
    | none => DEFAULT_PACKAGE
    | some s => if s = [] then DEFAULT_PACKAGE else s
  ⟨some (resolvePackage pkg)⟩

/-- The same `validateConfig`, with the caller's argument object tracked.
JavaScript passes the config object by reference and the function assigns to
`configParams.package`, so when a config object was passed the caller's object
is updated in place and the function returns that same object; when the
argument was absent, `configParams = configParams || {}` rebinds the local
name to a fresh object and the caller sees no change.  The first component is
the caller's object after the call, the second the returned object. -/
def validateConfigMut (configParams : Option ConfigParams) :
    Option ConfigParams × ConfigParams :=
  match configParams with
  | none => (none, validateConfig none)
  | some cp => (some (validateConfig (some cp)), validateConfig (some cp))

/-- Field types declared in `getFields`. -/
inductive FieldType where
  | TEXT : FieldType
  | YEAR_MONTH_DAY : FieldType
  | NUMBER : FieldType
deriving DecidableEq

/-- Aggregation types used in `getFields`. -/
inductive AggregationType where
  | SUM : AggregationType
deriving DecidableEq

/-- One field descriptor of the connector's schema. -/
structure FieldDescriptor where
  id : JsStr
  name : JsStr
  type : FieldType
  aggregation : Option AggregationType
  isDimension : Bool
deriving DecidableEq

/-- The function `getFields` (src/main.js:43-68): the fixed schema — dimensions
`packageName` (TEXT) and `day` (YEAR_MONTH_DAY), metric `downloads`
(NUMBER, SUM). -/
def getFields : List FieldDescriptor :=
  [ { id := "packageName".toList, name := "Package".toList,
      type := .TEXT, aggregation := none, isDimension := true },
    { id := "day".toList, name := "Date".toList,
      type := .YEAR_MONTH_DAY, aggregation := none, isDimension := true },
    { id := "downloads".toList, name := "Downloads".toList,
      type := .NUMBER, aggregation := some .SUM, isDimension := false } ]

/-- Modelled from the spec: the host SDK's `Fields.forIds` (called in
`getData`, src/main.js:82-86) is not part of this repository; per the spec it
returns the "subset of field descriptors matching requested ids", here the
requested ids in request order, each resolved against the declared schema. -/
def forIds (ids : List JsStr) : List FieldDescriptor :=
  ids.filterMap (fun i => getFields.find? (fun f => f.id == i))

/-- The function `normalizeResponse` (src/main.js:135-147): parse the response text, then
branch on the length of the comma-split package list from the request — a
one-element list wraps the whole parsed response under that single package
name, otherwise the parsed response passes through unchanged.  An absent
`package` value would make `undefined.split` throw a `TypeError`. -/
def normalizeResponse (pkg : Option JsStr) (responseString : ResponseText) :
    Except JsError Js :=
  match jsonParse responseString with
  | .error e => .error e
  | .ok response =>
    match pkg with
    | none => .error .typeError
    | some p =>
      let package_list := jsSplit ',' p
      if package_list.length = 1 then
        .ok (.obj [(package_list.headD [], response)])
      else
        .ok response

/-- One output row, as `formatData` returns it: `{values: row}`. -/
structure Row where
  values : List Js

/-- The switch inside `formatData` (src/main.js:210-219), for one requested
field id: `day` reads `dailyDownload.day` and strips dashes (`.replace` on a
non-string throws), `downloads` reads `dailyDownload.downloads` as is,
`packageName` returns the current package name, anything else the empty
string. -/
def formatField (packageName : JsStr) (dailyDownload : Js) (id : JsStr) :
    Except JsError Js :=
  if id = "day".toList then
    match jsGet dailyDownload "day".toList with
    | .error e => .error e
    | .ok (.str s) => .ok (.str (s.filter (fun c => c ≠ '-')))
    | .ok _ => .error .typeError
  else if id = "downloads".toList then
    jsGet dailyDownload "downloads".toList
  else if id = "packageName".toList then
    .ok (.str packageName)
  else
    .ok (.str [])

/-- The function `formatData` (src/main.js:208-222): map the requested fields through the
per-field switch and wrap the value list in `{values: …}`. -/
def formatData (requestedFields : List FieldDescriptor) (packageName : JsStr)
    (dailyDownload : Js) : Except JsError Row :=
  match jsMap (fun f => formatField packageName dailyDownload f.id) requestedFields with
  | .error e => .error e
  | .ok row => .ok ⟨row⟩

/-- The per-package body of the `Object.keys(response).map` callback in
`getFormattedData` (src/main.js:161-167): read this package's `downloads` list
(`.map` on anything but an array throws) and format one row per daily
entry. -/
def formatPackage (requestedFields : List FieldDescriptor) (kv : JsStr × Js) :
    Except JsError (List Row) :=
  match jsGet kv.2 "downloads".toList with
  | .error e => .error e
  | .ok (.arr downloadData) =>
    jsMap (formatData requestedFields kv.1) downloadData
  | .ok _ => .error .typeError

/-- The function `getFormattedData` (src/main.js:159-170): for each key of the normalized
response in enumeration order, format that package's daily entries, then
concatenate all the per-package row lists.  `Object.keys(undefined)` throws. -/
def getFormattedData (response : Js) (requestedFields : List FieldDescriptor) :
    Except JsError (List Row) :=
  match response with
  | .undefined => .error .typeError
  | r =>
    match jsMap (formatPackage requestedFields) (jsEntries r) with
    | .error e => .error e
    | .ok chunks => .ok chunks.flatten

/-- The URL built inside `fetchDataFromApi` (src/main.js:114-121), reading the
request's date range and `configParams.package` (an absent config makes the
property access throw; `Array.prototype.join` renders an absent `package` as
the empty string). -/
def buildUrl (request : DataRequest) : Except JsError JsStr :=
  match request.configParams with
  | none => .error .typeError
  | some cp =>
    .ok ("https://api.npmjs.org/downloads/range/".toList
      ++ request.dateRange.startDate ++ ":".toList
      ++ request.dateRange.endDate ++ "/".toList
      ++ cp.package.getD [])

/-- The function `fetchDataFromApi` (src/main.js:113-124): build the URL and perform one
GET against the external world; a failed fetch surfaces as a thrown error. -/
def fetchDataFromApi (request : DataRequest) (world : JsStr → FetchOutcome) :
    Except JsError ResponseText :=
  match buildUrl request with
  | .error e => .error e
  | .ok url =>
    match world url with
    | .ok text => .ok text
    | .fail => .error .fetchError

/-- The URL `getData` actually fetches for a given request: `buildUrl` after
config validation (used to state the error-boundary property). -/
def getDataUrl (request : DataRequest) : JsStr :=
  "https://api.npmjs.org/downloads/range/".toList
    ++ request.dateRange.startDate ++ ":".toList
    ++ request.dateRange.endDate ++ "/".toList
    ++ (validateConfig request.configParams).package.getD []

/-- The value `getData` would return if the return statement could read the
row data. -/
structure GetDataResult where
  schema : List FieldDescriptor
  rows : List Row

/-- The function `getData` (src/main.js:79-105): validate the config in place, resolve the
requested fields, then run fetch → normalize → format inside a `try` block
whose `catch` converts any thrown error into the single opaque user error
(`cc.newUserError().throwException()`, which itself throws, so no rows are
ever returned on failure).  On the success path the source declares
`let data = getFormattedData(...)` inside the `try` block; the `return`
statement sits outside that block, where the block-scoped name `data` no
longer exists, so evaluating `rows: data` throws a `ReferenceError` instead of
returning `{schema, rows}`. -/
def getData (request : DataRequest) (world : JsStr → FetchOutcome) :
    Except JsError GetDataResult :=
  let configParams := validateConfig request.configParams
  let request' : DataRequest := { request with configParams := some configParams }
  let requestedFields := forIds (request'.fields.map RequestField.name)
  let tryBlock : Except JsError (List Row) :=
    match fetchDataFromApi request' world with
    | .error e => .error e
    | .ok apiResponse =>
      match normalizeResponse configParams.package apiResponse with
      | .error e => .error e
      | .ok normalizedResponse => getFormattedData normalizedResponse requestedFields
  match tryBlock with
  | .error _ => .error .userError
  | .ok _data => .error .referenceError

/-- A well-formed daily download entry, as the upstream API serves it. -/
structure DailyDownload where
  day : JsStr
  downloads : Int

/-- The JSON object for one daily entry. -/
def DailyDownload.toJs (d : DailyDownload) : Js :=
  .obj [("day".toList, .str d.day), ("downloads".toList, .num d.downloads)]

/-- A well-formed per-package payload: `{downloads: [...]}`. -/
structure PackageData where
  downloads : List DailyDownload

/-- The JSON object for one package's payload. -/
def PackageData.toJs (p : PackageData) : Js :=
  .obj [("downloads".toList, .arr (p.downloads.map DailyDownload.toJs))]

/-- A normalized response in the shape the spec's data model requires: an
ordered mapping from package name to that package's payload. -/
abbrev NormalizedResponse := List (JsStr × PackageData)

/-- The JSON object for a normalized response. -/
def NormalizedResponse.toJs (r : NormalizedResponse) : Js :=
  .obj (r.map (fun np => (np.1, PackageData.toJs np.2)))

/-- The value the `formatData` switch selects for a field id on a well-formed
daily entry (the typed reading of `formatField`). -/
def formatValue (packageName : JsStr) (d : DailyDownload) (id : JsStr) : Js :=
  if id = "day".toList then .str (d.day.filter (fun c => c ≠ '-'))
  else if id = "downloads".toList then .num d.downloads
  else if id = "packageName".toList then .str packageName
  else .str []

/-- The rows the row formatter is specified to produce: one per
(package, day) pair, packages in mapping order, days in sequence order. -/
def rowsInOrder (resp : NormalizedResponse) (fields : List FieldDescriptor) : List Row :=
  resp.flatMap (fun np =>
    np.2.downloads.map (fun d => Row.mk (fields.map (fun f => formatValue np.1 d f.id))))

/-- The request of end-to-end scenario 1: config `{package: "left-pad"}`, date
range `2023-01-01:2023-01-02`, requested fields
`[packageName, day, downloads]`. -/
def scenario1Request : DataRequest :=
  { configParams := some ⟨some "left-pad".toList⟩,
    dateRange := ⟨"2023-01-01".toList, "2023-01-02".toList⟩,
    fields := [⟨"packageName".toList⟩, ⟨"day".toList⟩, ⟨"downloads".toList⟩] }

/-- The upstream response of end-to-end scenario 1:
`{downloads:[{day:"2023-01-01",downloads:10},{day:"2023-01-02",downloads:20}]}`. -/
def scenario1Response : Js :=
  .obj [("downloads".toList, .arr [
    .obj [("day".toList, .str "2023-01-01".toList),
          ("downloads".toList, .num 10)],
    .obj [("day".toList, .str "2023-01-02".toList),
          ("downloads".toList, .num 20)]])]

theorem jsSplit_ne_nil (sep : Char) (s : JsStr) : jsSplit sep s ≠ [] := by
  cases s with
  | nil => simp [jsSplit]
  | cons c rest =>
    simp only [jsSplit]
    cases jsSplit sep rest with
    | nil => simp
    | cons p ps =>
      by_cases hc : c = sep <;> simp [hc]

theorem not_mem_of_mem_jsSplit (sep : Char) (s x : JsStr)
    (hx : x ∈ jsSplit sep s) : sep ∉ x := by
  induction s generalizing x with
  | nil =>
    simp only [jsSplit, List.mem_singleton] at hx
    simp [hx]
  | cons c rest ih =>
    simp only [jsSplit] at hx
    cases hps : jsSplit sep rest with
    | nil => exact absurd hps (jsSplit_ne_nil sep rest)
    | cons p ps =>
      rw [hps] at hx
      by_cases hc : c = sep
      · simp [hc] at hx
        rcases hx with h | h | h
        · simp [h]
        · exact ih x (by rw [hps, h]; exact List.mem_cons_self p ps)
        · exact ih x (by rw [hps]; exact List.mem_cons_of_mem p h)
      · simp only [if_neg hc, List.mem_cons] at hx
        rcases hx with h | h
        · subst h
          intro hmem
          rcases List.mem_cons.mp hmem with h' | h'
          · exact hc h'.symm
          · exact ih p (by rw [hps]; exact List.mem_cons_self p ps) h'
        · exact ih x (by rw [hps]; exact List.mem_cons_of_mem p h)

theorem jsSplit_append_cons (sep : Char) (x rest : JsStr) (hx : sep ∉ x) :
    jsSplit sep (x ++ sep :: rest) = x :: jsSplit sep rest := by
  induction x with
  | nil =>
    simp only [List.nil_append, jsSplit]
    cases hps : jsSplit sep rest with
    | nil => exact absurd hps (jsSplit_ne_nil sep rest)
    | cons p ps => simp
  | cons c x' ih =>
    have hc : c ≠ sep := fun h => hx (by simp [h])
    have hx' : sep ∉ x' := fun h => hx (List.mem_cons_of_mem c h)
    simp only [List.cons_append, jsSplit, List.append_eq]
    rw [ih hx']
    simp [fun h => hc h]

theorem jsSplit_of_not_mem (sep : Char) (x : JsStr) (hx : sep ∉ x) :
    jsSplit sep x = [x] := by
  induction x with
  | nil => simp [jsSplit]
  | cons c x' ih =>
    have hc : c ≠ sep := fun h => hx (by simp [h])
    have hx' : sep ∉ x' := fun h => hx (List.mem_cons_of_mem c h)
    simp [jsSplit, ih hx', fun h => hc h]

theorem jsSplit_jsJoin (sep : Char) (parts : List JsStr) (hne : parts ≠ [])
    (hfree : ∀ x ∈ parts, sep ∉ x) :
    jsSplit sep (jsJoin sep parts) = parts := by
  induction parts with
  | nil => exact absurd rfl hne
  | cons x t ih =>
    cases t with
    | nil => exact jsSplit_of_not_mem sep x (hfree x (List.mem_singleton.mpr rfl))
    | cons y ys =>
      have hx : sep ∉ x := hfree x (List.mem_cons_self x (y :: ys))
      have hrest : ∀ z ∈ y :: ys, sep ∉ z :=
        fun z hz => hfree z (List.mem_cons_of_mem x hz)
      simp only [jsJoin, jsSplit_append_cons sep x (jsJoin sep (y :: ys)) hx]
      rw [ih (by simp) hrest]

theorem mem_of_mem_jsTrim (s : JsStr) (c : Char) (hc : c ∈ jsTrim s) : c ∈ s := by
  have h1 : jsTrim s = List.rdropWhile Char.isWhitespace
      (List.dropWhile Char.isWhitespace s) := rfl
  rw [h1] at hc
  obtain ⟨t, ht⟩ :=
    List.rdropWhile_prefix Char.isWhitespace (List.dropWhile Char.isWhitespace s)
  have hmem : c ∈ List.dropWhile Char.isWhitespace s := by
    rw [← ht]
    exact List.mem_append_left t hc
  exact (List.dropWhile_sublist Char.isWhitespace).mem hmem

theorem dropWhile_rdropWhile_of_dropWhile_eq {p : Char → Bool} (a : JsStr)
    (h : List.dropWhile p a = a) :
    List.dropWhile p (List.rdropWhile p a) = List.rdropWhile p a := by
  rcases hcase : List.rdropWhile p a with _ | ⟨c, r⟩
  · simp
  · obtain ⟨t, ht⟩ := List.rdropWhile_prefix p a
    rw [hcase] at ht
    have ha : a = c :: (r ++ t) := by rw [← ht]; simp
    have hc : ¬p c := by
      intro hp
      rw [ha, List.dropWhile_cons, if_pos hp] at h
      have hle : (List.dropWhile p (r ++ t)).length ≤ (r ++ t).length :=
        (List.dropWhile_sublist _).length_le
      rw [h] at hle
      simp at hle
    rw [List.dropWhile_cons, if_neg hc]

theorem jsTrim_jsTrim (s : JsStr) : jsTrim (jsTrim s) = jsTrim s := by
  have hdef : ∀ u : JsStr, jsTrim u = List.rdropWhile Char.isWhitespace
      (List.dropWhile Char.isWhitespace u) := fun u => rfl
  rw [hdef, hdef s]
  set a := List.dropWhile Char.isWhitespace s with ha
  have h1 : List.dropWhile Char.isWhitespace a = a := by
    rw [ha]; exact List.dropWhile_idempotent _ _
  rw [dropWhile_rdropWhile_of_dropWhile_eq a h1]
  exact List.rdropWhile_idempotent _ _

theorem resolvePackage_resolvePackage (p : JsStr) :
    resolvePackage (resolvePackage p) = resolvePackage p := by
  unfold resolvePackage
  set parts := (jsSplit ',' p).map jsTrim with hparts
  have hne : parts ≠ [] := by
    rw [hparts]
    intro h
    exact jsSplit_ne_nil ',' p (List.map_eq_nil_iff.mp h)
  have hfree : ∀ x ∈ parts, ',' ∉ x := by
    intro x hx
    rw [hparts] at hx
    obtain ⟨y, hy, hxy⟩ := List.mem_map.mp hx
    intro hmem
    exact not_mem_of_mem_jsSplit ',' p y hy (mem_of_mem_jsTrim y ',' (hxy ▸ hmem))
  rw [jsSplit_jsJoin ',' parts hne hfree]
  have : parts.map jsTrim = parts := by
    rw [hparts, List.map_map]
    exact List.map_congr_left (fun y _ => jsTrim_jsTrim y)
  rw [this]

theorem jsMap_eq_ok {α β : Type} (f : α → Except JsError β) (g : α → β)
    (l : List α) (h : ∀ x ∈ l, f x = .ok (g x)) : jsMap f l = .ok (l.map g) := by
  induction l with
  | nil => rfl
  | cons a t ih =>
    simp only [jsMap, h a (List.mem_cons_self a t),
      ih (fun x hx => h x (List.mem_cons_of_mem a hx)), List.map_cons]

theorem jsMap_map {α β γ : Type} (f : β → Except JsError γ) (g : α → β)
    (l : List α) : jsMap f (l.map g) = jsMap (fun a => f (g a)) l := by
  induction l with
  | nil => rfl
  | cons a t ih => simp only [List.map_cons, jsMap, ih]

theorem formatField_toJs (pkg : JsStr) (d : DailyDownload) (id : JsStr) :
    formatField pkg (DailyDownload.toJs d) id = .ok (formatValue pkg d id) := by
  by_cases h1 : id = "day".toList
  · subst h1; rfl
  · by_cases h2 : id = "downloads".toList
    · subst h2; rfl
    · by_cases h3 : id = "packageName".toList
      · subst h3; rfl
      · unfold formatField formatValue
        simp only [if_neg h1, if_neg h2, if_neg h3]

theorem formatData_toJs (fields : List FieldDescriptor) (pkg : JsStr)
    (d : DailyDownload) :
    formatData fields pkg (DailyDownload.toJs d) =
      .ok ⟨fields.map (fun f => formatValue pkg d f.id)⟩ := by
  unfold formatData
  rw [jsMap_eq_ok _ (fun f => formatValue pkg d f.id) fields
    (fun f _ => formatField_toJs pkg d f.id)]

theorem formatPackage_toJs (fields : List FieldDescriptor)
    (np : JsStr × PackageData) :
    formatPackage fields (np.1, PackageData.toJs np.2) =
      .ok (np.2.downloads.map
        (fun d => Row.mk (fields.map (fun f => formatValue np.1 d f.id)))) := by
  show jsMap (formatData fields np.1) (np.2.downloads.map DailyDownload.toJs) = _
  rw [jsMap_map (formatData fields np.1) DailyDownload.toJs np.2.downloads]
  exact jsMap_eq_ok _ _ np.2.downloads (fun d _ => formatData_toJs fields np.1 d)

theorem getFormattedData_toJs (resp : NormalizedResponse)
    (fields : List FieldDescriptor) :
    getFormattedData (NormalizedResponse.toJs resp) fields =
      .ok (rowsInOrder resp fields) := by
  have hobj : ∀ kvs : List (JsStr × Js), getFormattedData (Js.obj kvs) fields =
      (match jsMap (formatPackage fields) kvs with
        | .error e => .error e
        | .ok chunks => .ok chunks.flatten) := fun kvs => rfl
  have htoJs : NormalizedResponse.toJs resp =
      Js.obj (resp.map (fun np => (np.1, PackageData.toJs np.2))) := rfl
  rw [htoJs, hobj, jsMap_map (formatPackage fields)
    (fun np => (np.1, PackageData.toJs np.2)) resp]
  rw [jsMap_eq_ok _
    (fun np => np.2.downloads.map
      (fun d => Row.mk (fields.map (fun f => formatValue np.1 d f.id))))
    resp (fun np _ => formatPackage_toJs fields np)]
  rw [rowsInOrder, List.flatMap_def]

/-- Claim C6: for every configuration object where the `package` field is
absent or blank (the empty string — the only falsy string, which the source's
`configParams.package || DEFAULT_PACKAGE` replaces), config resolution yields
the default package name; likewise when the whole config object is absent. -/
theorem validateConfig_defaults :
    validateConfig none = ⟨some DEFAULT_PACKAGE⟩
    ∧ ∀ cp : ConfigParams, cp.package = none ∨ cp.package = some [] →
        validateConfig (some cp) = ⟨some DEFAULT_PACKAGE⟩ := by
  refine ⟨by decide, ?_⟩
  intro cp h
  obtain ⟨pk⟩ := cp
  rcases h with h | h <;> simp only at h <;> subst h <;> decide

/-- Witness for C6 at the blank package value. -/
theorem validateConfig_defaults_witness :
    validateConfig (some ⟨some []⟩) = ⟨some DEFAULT_PACKAGE⟩ :=
  validateConfig_defaults.2 ⟨some []⟩ (Or.inr rfl)

/-- Claim C7: for every configuration with a non-empty `package` value, config
resolution yields the comma-join of the trimmed comma-separated elements, and
splitting the resolved value on commas gives back exactly those trimmed
elements — the semantic list is unchanged. -/
theorem validateConfig_trims (s : JsStr) (h : s ≠ []) :
    validateConfig (some ⟨some s⟩) =
      ⟨some (jsJoin ',' ((jsSplit ',' s).map jsTrim))⟩
    ∧ jsSplit ',' (jsJoin ',' ((jsSplit ',' s).map jsTrim)) =
        (jsSplit ',' s).map jsTrim := by
  constructor
  · simp [validateConfig, resolvePackage, h]
  · apply jsSplit_jsJoin
    · intro hmap
      exact jsSplit_ne_nil ',' s (List.map_eq_nil_iff.mp hmap)
    · intro x hx
      obtain ⟨y, hy, hxy⟩ := List.mem_map.mp hx
      intro hmem
      exact not_mem_of_mem_jsSplit ',' s y hy (mem_of_mem_jsTrim y ',' (hxy ▸ hmem))

/-- Witness for C7 at the spec's example `" a , b ,c "`, which resolves to
`"a,b,c"`. -/
theorem validateConfig_trims_witness :
    " a , b ,c ".toList ≠ [] ∧
    validateConfig (some ⟨some " a , b ,c ".toList⟩) = ⟨some "a,b,c".toList⟩ := by
  refine ⟨by decide, ?_⟩
  rw [(validateConfig_trims " a , b ,c ".toList (by decide)).1]
  decide

/-- Claim C8: for every daily download entry, formatting the `day` field
yields the day string with every `-` character removed, and no `-` survives
in the result. -/
theorem formatField_strips_dashes (pkg : JsStr) (d : DailyDownload) :
    formatField pkg (DailyDownload.toJs d) "day".toList =
      .ok (.str (d.day.filter (fun c => c ≠ '-')))
    ∧ ∀ c ∈ d.day.filter (fun c => c ≠ '-'), c ≠ '-' := by
  refine ⟨formatField_toJs pkg d "day".toList, ?_⟩
  intro c hc
  simpa using (List.mem_filter.mp hc).2

/-- Witness for C8 at the spec's example: `"2023-01-05"` becomes
`"20230105"`. -/
theorem formatField_strips_dashes_witness :
    formatField "x".toList (DailyDownload.toJs ⟨"2023-01-05".toList, 3⟩)
        "day".toList = .ok (.str "20230105".toList)
    ∧ ('2' ∈ "2023-01-05".toList.filter (fun c => c ≠ '-') → '2' ≠ '-') := by
  constructor
  · rw [(formatField_strips_dashes "x".toList ⟨"2023-01-05".toList, 3⟩).1]
    rfl
  · exact fun hm =>
      (formatField_strips_dashes "x".toList ⟨"2023-01-05".toList, 3⟩).2 '2' hm

/-- Claim C3: the normalizer decides the single-vs-multi shape only by the
length of the comma-split package list from the request — for any parsed
response value whatsoever, a one-element list wraps the whole response under
that single package name as the sole key, and a longer list passes the
response through unchanged. -/
theorem normalizeResponse_shape (p : JsStr) (v : Js) :
    ((jsSplit ',' p).length = 1 →
      normalizeResponse (some p) (.jsonOf v) =
        .ok (.obj [((jsSplit ',' p).headD [], v)]))
    ∧ (1 < (jsSplit ',' p).length →
      normalizeResponse (some p) (.jsonOf v) = .ok v) := by
  constructor
  · intro h
    simp [normalizeResponse, jsonParse, h]
  · intro h
    have hne : ¬(jsSplit ',' p).length = 1 := by omega
    simp [normalizeResponse, jsonParse, hne]

/-- Witness for C3: a one-package request wraps, a two-package request passes
through. -/
theorem normalizeResponse_shape_witness :
    normalizeResponse (some "a".toList) (.jsonOf (Js.num 5)) =
      .ok (.obj [("a".toList, Js.num 5)])
    ∧ normalizeResponse (some "a,b".toList) (.jsonOf (Js.num 5)) =
      .ok (Js.num 5) := by
  constructor
  · exact (normalizeResponse_shape "a".toList (Js.num 5)).1 (by decide)
  · exact (normalizeResponse_shape "a,b".toList (Js.num 5)).2 (by decide)

/-- Counterexample to claim C9: config resolution is not idempotent.  The
whitespace-only package value `"   "` resolves to the empty string (already a
comma-join of trimmed names), and resolving that output again replaces it by
the default package name. -/
theorem validateConfig_not_idempotent :
    validateConfig (some (validateConfig (some ⟨some "   ".toList⟩)))
      ≠ validateConfig (some ⟨some "   ".toList⟩) := by decide

/-- Claim C9 as amended: config resolution is idempotent on every config whose
resolved package value is non-empty (every case except a whitespace-only
package value, whose resolution is empty and is defaulted on the second
pass). -/
theorem validateConfig_idem (cp : ConfigParams)
    (h : (validateConfig (some cp)).package ≠ some []) :
    validateConfig (some (validateConfig (some cp))) = validateConfig (some cp) := by
  obtain ⟨pk⟩ := cp
  have hq : ∃ p0, validateConfig (some ⟨pk⟩) = ⟨some (resolvePackage p0)⟩ := by
    cases pk with
    | none => exact ⟨DEFAULT_PACKAGE, rfl⟩
    | some s =>
      by_cases hs : s = []
      · exact ⟨DEFAULT_PACKAGE, by simp [validateConfig, hs]⟩
      · exact ⟨s, by simp [validateConfig, hs]⟩
  obtain ⟨p0, hp0⟩ := hq
  rw [hp0] at h ⊢
  have hne : resolvePackage p0 ≠ [] := by
    intro hnil
    exact h (by rw [hnil])
  have hstep : validateConfig (some ⟨some (resolvePackage p0)⟩) =
      ⟨some (resolvePackage (resolvePackage p0))⟩ := by
    simp [validateConfig, hne]
  rw [hstep, resolvePackage_resolvePackage]

/-- Witness for the amended C9 at an already-normalizable two-package
config. -/
theorem validateConfig_idem_witness :
    (validateConfig (some ⟨some "a, b".toList⟩)).package ≠ some [] ∧
    validateConfig (some (validateConfig (some ⟨some "a, b".toList⟩))) =
      validateConfig (some ⟨some "a, b".toList⟩) :=
  ⟨by decide, validateConfig_idem ⟨some "a, b".toList⟩ (by decide)⟩

/-- Counterexample to claim C10: the Config Resolver does not leave its input
configuration object unmodified — after `validateConfig({package: " a "})`
the caller's object holds `{package: "a"}`, not its original value. -/
theorem validateConfigMut_modifies_input :
    (validateConfigMut (some ⟨some " a ".toList⟩)).1 ≠ some ⟨some " a ".toList⟩ := by
  decide

/-- Claim C10 as amended: no component retains state between calls and each is
a deterministic function of its inputs (the Fetcher's HTTP effect aside), but
the Config Resolver updates the caller's config object in place: when a config
object was passed, after the call it holds exactly the returned resolved
config, and an absent config leaves nothing to modify. -/
theorem validateConfigMut_alias (configParams : Option ConfigParams) :
    (validateConfigMut configParams).2 = validateConfig configParams
    ∧ (validateConfigMut configParams).1 =
        configParams.map (fun _ => validateConfig configParams) := by
  cases configParams <;> simp [validateConfigMut]

/-- Claim C4: on every normalized response the row formatter produces exactly
the rows of `rowsInOrder` — one row per (package, day) pair, packages in
mapping order, then days in that package's sequence order — and the total row
count is the sum over packages of their day counts. -/
theorem getFormattedData_row_invariant (resp : NormalizedResponse)
    (fields : List FieldDescriptor) :
    getFormattedData (NormalizedResponse.toJs resp) fields =
      .ok (rowsInOrder resp fields)
    ∧ (rowsInOrder resp fields).length =
        (resp.map (fun np => np.2.downloads.length)).sum := by
  refine ⟨getFormattedData_toJs resp fields, ?_⟩
  rw [rowsInOrder, List.length_flatMap]
  congr 1
  exact List.map_congr_left (fun np _ => by simp)

/-- Claim C5: on every daily entry the formatted row has one value per
requested field, in the requested order, and a requested field id other than
`day`, `downloads` or `packageName` contributes the empty string instead of an
error. -/
theorem formatData_row_order (fields : List FieldDescriptor) (pkg : JsStr)
    (d : DailyDownload) :
    formatData fields pkg (DailyDownload.toJs d) =
      .ok ⟨fields.map (fun f => formatValue pkg d f.id)⟩
    ∧ (fields.map (fun f => formatValue pkg d f.id)).length = fields.length
    ∧ ∀ f ∈ fields, f.id ≠ "day".toList → f.id ≠ "downloads".toList →
        f.id ≠ "packageName".toList → formatValue pkg d f.id = .str [] := by
  refine ⟨formatData_toJs fields pkg d, by simp, ?_⟩
  intro f _ h1 h2 h3
  unfold formatValue
  simp only [if_neg h1, if_neg h2, if_neg h3]

/-- Witness for C5: the three schema fields plus an unknown field id give a
four-value row ending in the empty string. -/
theorem formatData_row_order_witness :
    formatData (getFields ++ [⟨"bogus".toList, "Bogus".toList, .TEXT, none, true⟩])
        "p".toList (DailyDownload.toJs ⟨"2023-01-01".toList, 7⟩) =
      .ok ⟨[.str "p".toList, .str "20230101".toList, .num 7, .str []]⟩
    ∧ formatValue "p".toList ⟨"2023-01-01".toList, 7⟩ "bogus".toList = .str [] := by
  have h := formatData_row_order
    (getFields ++ [⟨"bogus".toList, "Bogus".toList, .TEXT, none, true⟩])
    "p".toList ⟨"2023-01-01".toList, 7⟩
  constructor
  · rw [h.1]
    rfl
  · exact h.2.2 ⟨"bogus".toList, "Bogus".toList, .TEXT, none, true⟩
      (by decide) (by decide) (by decide) (by decide)

/-- Claim C2: whenever the fetch at the request's URL fails or returns a body
that is not valid JSON, `getData` converts the thrown error at its single
try/catch boundary into the one opaque user-facing error; no rows are
returned. -/
theorem getData_error_boundary (request : DataRequest)
    (world : JsStr → FetchOutcome)
    (h : world (getDataUrl request) = .fail ∨
         world (getDataUrl request) = .ok .malformed) :
    getData request world = .error .userError := by
  have hfetch : fetchDataFromApi
      { request with configParams := some (validateConfig request.configParams) }
      world =
      (match world (getDataUrl request) with
        | .ok text => Except.ok text
        | .fail => Except.error JsError.fetchError) := rfl
  simp only [getData]
  rcases h with h | h
  · rw [hfetch, h]
  · rw [hfetch, h]
    rfl

/-- Witness for C2 at a request with absent config and a failing fetch. -/
theorem getData_error_boundary_witness :
    getData ⟨none, ⟨[], []⟩, []⟩ (fun _ => .fail) = .error .userError :=
  getData_error_boundary ⟨none, ⟨[], []⟩, []⟩ (fun _ => .fail) (Or.inl rfl)

/-- Claim C1 (end-to-end scenario 1): the pipeline value computed inside
`getData`'s try block is exactly the claimed pair of rows — normalization
wraps the single-package response under `"left-pad"`, the requested ids
resolve to the full three-field schema subset, and formatting yields
`[["left-pad","20230101",10], ["left-pad","20230102",20]]` — but `getData`
itself throws a `ReferenceError` instead of returning them, because the
source declares `let data` inside the `try` block and reads `data` at the
`return` statement outside it. -/
theorem getData_scenario1 :
    normalizeResponse (some "left-pad".toList) (.jsonOf scenario1Response) =
      .ok (.obj [("left-pad".toList, scenario1Response)])
    ∧ forIds ["packageName".toList, "day".toList, "downloads".toList] = getFields
    ∧ getFormattedData (.obj [("left-pad".toList, scenario1Response)])
        (forIds ["packageName".toList, "day".toList, "downloads".toList]) =
      .ok [⟨[.str "left-pad".toList, .str "20230101".toList, .num 10]⟩,
           ⟨[.str "left-pad".toList, .str "20230102".toList, .num 20]⟩]
    ∧ getData scenario1Request (fun _ => .ok (.jsonOf scenario1Response)) =
        .error .referenceError :=
  ⟨rfl, rfl, rfl, rfl⟩
